import Mathlib

/-!
Verification of `src/stockmarket.py` (Streamlit dashboard over Snowflake data).

Shallow embedding conventions:

* A Snowflake/pandas cell that may be NULL is `Option ℚ`.
* Calendar dates are `Int` day numbers (days since 1970-01-01), so date
  ordering and `timedelta(days = 30)` arithmetic are exact; the literal
  `'2019-01-01'` is day number 17897.
* The Snowflake expression `(close - lag close) / lag close` follows SQL
  semantics: NULL operands propagate to NULL, and a division whose
  denominator is the number 0 raises an engine error, which aborts the
  whole query.  Fallible evaluation is `Except Unit`.
* `pandas` dataframes are lists of records; the in-place dtype conversion
  `df_stocks['DATE'] = pd.to_datetime(df_stocks['DATE'])` is modelled by a
  `dateIsDatetime` flag on the stock table, since it changes only the
  representation of the DATE column, not the day each cell denotes.
* A dynamically typed dataframe cell (string or number) is `CellVal`; it is
  needed for the FX leg, where a column rename moves the string column
  `VARIABLE_NAME` under the numeric-sounding name `EXCHANGE_RATE`.
-/

/-- The seven tracked tickers, from the `TICKER.isin(...)` filter. -/
def tracked : List String := ["AAPL", "MSFT", "AMZN", "GOOGL", "META", "TSLA", "NVDA"]

/-- The two variable names kept by the `VARIABLE_NAME.isin(...)` filter. -/
def trackedVariables : List String := ["Nasdaq Volume", "Post-Market Close"]

/-- A raw long-format row of `STOCK_PRICE_TIMESERIES`. -/
structure RawStockRow where
  ticker : String
  date : Int
  variable_name : String
  value : Option ℚ
deriving DecidableEq

/-- A wide-format stock row after the `groupBy("TICKER","DATE").agg(...)` pivot. -/
structure StockRow where
  ticker : String
  date : Int
  nasdaq_volume : Option ℚ
  postmarket_close : Option ℚ
deriving DecidableEq

/-- A stock row after `withColumn("DAY_OVER_DAY_CHANGE", ...)`. -/
structure TransRow where
  ticker : String
  date : Int
  nasdaq_volume : Option ℚ
  postmarket_close : Option ℚ
  day_over_day_change : Option ℚ
deriving DecidableEq

/-- The two `isin` filters applied to the raw stock table. -/
def filteredRows (rows : List RawStockRow) : List RawStockRow :=
  rows.filter (fun r => decide (r.ticker ∈ tracked) && decide (r.variable_name ∈ trackedVariables))

/-- SQL `MAX` of two nullable values: NULLs are ignored. -/
def optMax : Option ℚ → Option ℚ → Option ℚ
  | none, b => b
  | some a, none => some a
  | some a, some b => some (max a b)

/-- SQL `MAX` aggregate over a group of nullable values (NULL on an all-NULL group). -/
def maxAgg (l : List (Option ℚ)) : Option ℚ := l.foldr optMax none

/-- `when(col("VARIABLE_NAME") == v, col("VALUE"))` with no `otherwise`: NULL when the
variable name differs. -/
def whenVar (v : String) (r : RawStockRow) : Option ℚ :=
  if r.variable_name = v then r.value else none

/-- The distinct `(TICKER, DATE)` group keys of the filtered raw rows. -/
def pivotKeys (rows : List RawStockRow) : List (String × Int) :=
  ((filteredRows rows).map (fun r => (r.ticker, r.date))).dedup

/-- The aggregated wide row for one `(TICKER, DATE)` group key. -/
def pivotRow (rows : List RawStockRow) (k : String × Int) : StockRow :=
  let grp := (filteredRows rows).filter (fun r => decide (r.ticker = k.1) && decide (r.date = k.2))
  { ticker := k.1
    date := k.2
    nasdaq_volume := maxAgg (grp.map (whenVar "Nasdaq Volume"))
    postmarket_close := maxAgg (grp.map (whenVar "Post-Market Close")) }

/-- The pivot `groupBy("TICKER","DATE").agg(max(when ...), max(when ...))`:
one wide row per distinct key of the filtered raw rows. -/
def pivotStocks (rows : List RawStockRow) : List StockRow :=
  (pivotKeys rows).map (pivotRow rows)

/-- SQL subtraction on nullable numbers: NULL if either operand is NULL. -/
def sqlSub : Option ℚ → Option ℚ → Option ℚ
  | some a, some b => some (a - b)
  | _, _ => none

/-- SQL division on nullable numbers: NULL if either operand is NULL; an engine
error (`Except.error`) when the denominator is the number 0. -/
def sqlDiv : Option ℚ → Option ℚ → Except Unit (Option ℚ)
  | none, _ => Except.ok none
  | some _, none => Except.ok none
  | some a, some b => if b = 0 then Except.error () else Except.ok (some (a / b))

/-- Date order on wide stock rows, the `orderBy("DATE")` of the window spec. -/
def dateLE (a b : StockRow) : Prop := a.date ≤ b.date

instance : DecidableRel dateLE := fun a b => Int.decLe a.date b.date

instance : IsTotal StockRow dateLE := ⟨fun a b => Int.le_total a.date b.date⟩

instance : IsTrans StockRow dateLE := ⟨fun _ _ _ h h' => Int.le_trans h h'⟩

/-- Order a partition's rows by DATE ascending. -/
def sortByDate (l : List StockRow) : List StockRow := l.insertionSort dateLE

/-- Walk one date-ordered ticker partition carrying the lagged `POSTMARKET_CLOSE`
(`none` before the first row), computing
`DAY_OVER_DAY_CHANGE = (POSTMARKET_CLOSE - lag) / lag` on each row with the SQL
semantics of `sqlSub` / `sqlDiv`.  Any division-by-zero error aborts the query. -/
def addChangeAux : Option ℚ → List StockRow → Except Unit (List TransRow)
  | _, [] => Except.ok []
  | prev, r :: rs =>
    match sqlDiv (sqlSub r.postmarket_close prev) prev with
    | Except.error e => Except.error e
    | Except.ok chg =>
      match addChangeAux r.postmarket_close rs with
      | Except.error e => Except.error e
      | Except.ok rest =>
        Except.ok ({ ticker := r.ticker, date := r.date, nasdaq_volume := r.nasdaq_volume,
                     postmarket_close := r.postmarket_close,
                     day_over_day_change := chg } :: rest)

/-- The distinct tickers of the pivoted table, the window partition keys. -/
def tickersOf (l : List StockRow) : List String := (l.map (fun r => r.ticker)).dedup

/-- The date-ordered partition of one ticker, per `Window.partitionBy("TICKER").orderBy("DATE")`. -/
def partitionRows (pivoted : List StockRow) (t : String) : List StockRow :=
  sortByDate (pivoted.filter (fun r => decide (r.ticker = t)))

/-- Apply the lag computation partition by partition; an engine error in any
partition aborts the whole query. -/
def transformParts (pivoted : List StockRow) : List String → Except Unit (List TransRow)
  | [] => Except.ok []
  | t :: ts =>
    match addChangeAux none (partitionRows pivoted t) with
    | Except.error e => Except.error e
    | Except.ok part =>
      match transformParts pivoted ts with
      | Except.error e => Except.error e
      | Except.ok rest => Except.ok (part ++ rest)

/-- `withColumn("DAY_OVER_DAY_CHANGE", (close - lag close) / lag close)` over the
window partitioned by TICKER and ordered by DATE. -/
def transformStocks (pivoted : List StockRow) : Except Unit (List TransRow) :=
  transformParts pivoted (tickersOf pivoted)

/-- The whole stock leg of `load_data`: filter, pivot, then the window transform. -/
def loadStocks (rows : List RawStockRow) : Except Unit (List TransRow) :=
  transformStocks (pivotStocks rows)

/-- A dynamically typed dataframe cell: a string or a number. -/
inductive CellVal where
  | str (s : String)
  | num (q : ℚ)
deriving DecidableEq

/-- Whether a cell holds a number. -/
def CellVal.isNum : CellVal → Bool
  | .num _ => true
  | .str _ => false

/-- Day number of the literal `'2019-01-01'` (days since 1970-01-01). -/
def d2019_01_01 : Int := 17897

/-- A raw row of `FX_RATES_TIMESERIES`. -/
structure RawFxRow where
  base_currency_id : String
  quote_currency_name : String
  date : Int
  variable_name : String
  value : ℚ
deriving DecidableEq

/-- A loaded FX row.  `with_column_renamed('VARIABLE_NAME', 'EXCHANGE_RATE')` renames
the string column `VARIABLE_NAME`, so `exchange_rate` carries that string as a
dynamically typed cell; the numeric rate stays in `value`. -/
structure FxRow where
  base_currency_id : String
  quote_currency_name : String
  date : Int
  exchange_rate : CellVal
  value : ℚ
deriving DecidableEq

/-- The FX leg of `load_data`: filter to base currency EUR and dates on/after
2019-01-01, then rename `VARIABLE_NAME` to `EXCHANGE_RATE`. -/
def loadFx (rows : List RawFxRow) : List FxRow :=
  (rows.filter (fun r => decide (r.base_currency_id = "EUR") && decide (d2019_01_01 ≤ r.date))).map
    (fun r =>
      { base_currency_id := r.base_currency_id
        quote_currency_name := r.quote_currency_name
        date := r.date
        exchange_rate := CellVal.str r.variable_name
        value := r.value })

/-- The stock dataframe together with the pandas dtype of its DATE column:
`dateIsDatetime = false` right after `load_data` (Snowflake DATE objects),
`true` after `pd.to_datetime` has replaced the column in place. -/
structure StockTable where
  rows : List TransRow
  dateIsDatetime : Bool
deriving DecidableEq

/-- The two module-level dataframes `df_stocks, df_fx = load_data()`. -/
structure AppState where
  stocks : StockTable
  fx : List FxRow
deriving DecidableEq

/-- `load_data` itself: both legs; a stock-leg engine error is fatal to the load. -/
def load_data (rawStocks : List RawStockRow) (rawFx : List RawFxRow) :
    Except Unit AppState :=
  match loadStocks rawStocks with
  | Except.error e => Except.error e
  | Except.ok out => Except.ok { stocks := { rows := out, dateIsDatetime := false },
                                 fx := loadFx rawFx }

/-- The user inputs of the stock page: the `st.date_input` range, the
`st.multiselect` ticker list, and the `st.selectbox` metric. -/
structure StockSelection where
  start_date : Int
  end_date : Int
  tickers : List String
  metric : String
deriving DecidableEq

/-- The Altair chart built by `stock_prices`: the filtered dataframe plus the
encoding fields, recording the date bounds actually used by the row filter. -/
structure StockView where
  rows : List TransRow
  usedStart : Int
  usedEnd : Int
  xField : String
  yField : String
  colorField : String
deriving DecidableEq

/-- The Altair chart built by `fx_rates`. -/
structure FxView where
  rows : List FxRow
  xField : String
  yField : String
  colorField : String
deriving DecidableEq

/-- The date-range row filter
`(df_stocks['DATE'] >= start) & (df_stocks['DATE'] <= end)`. -/
def dateFiltered (rows : List TransRow) (s e : Int) : List TransRow :=
  rows.filter (fun r => decide (s ≤ r.date) && decide (r.date ≤ e))

/-- `df_filtered['TICKER'].unique().tolist()` (order is irrelevant downstream). -/
def uniqueTickers (rows : List TransRow) : List String :=
  (rows.map (fun r => r.ticker)).dedup

/-- Maximum of a list of day numbers (`0` on the empty list, where pandas gives `NaT`). -/
def daysMax : List Int → Int
  | [] => 0
  | [d] => d
  | d :: ds => max d (daysMax ds)

/-- Minimum of a list of day numbers (`0` on the empty list, where pandas gives `NaT`). -/
def daysMin : List Int → Int
  | [] => 0
  | [d] => d
  | d :: ds => min d (daysMin ds)

/-- `df_stocks['DATE'].max()`. -/
def maxDate (rows : List TransRow) : Int := daysMax (rows.map (fun r => r.date))

/-- `df_stocks['DATE'].min()`. -/
def minDate (rows : List TransRow) : Int := daysMin (rows.map (fun r => r.date))

/-- `default_start_date = max_date - timedelta(days=30)`. -/
def defaultStartDate (rows : List TransRow) : Int := maxDate rows - 30

/-- The default of the ticker multiselect: the seven tracked tickers kept in
order, intersected with the tickers present in the date-filtered dataframe. -/
def defaultTickers (rows : List TransRow) (s e : Int) : List String :=
  tracked.filter (fun t => decide (t ∈ uniqueTickers (dateFiltered rows s e)))

/-- The options of the metric selectbox, in order; `index=0` selects the head. -/
def metricOptions : List String := ["DAY_OVER_DAY_CHANGE", "POSTMARKET_CLOSE", "NASDAQ_VOLUME"]

/-- The selection shown before the user touches any widget: date range
`[max_date - 30 days, max_date]`, the default tickers for that range, and the
metric at `index = 0`. -/
def defaultStockSelection (rows : List TransRow) : StockSelection :=
  { start_date := defaultStartDate rows
    end_date := maxDate rows
    tickers := defaultTickers rows (defaultStartDate rows) (maxDate rows)
    metric := metricOptions.headI }

/-- One run of the `stock_prices` page on state `s` with widget values `sel`:
converts the DATE column to datetime in place on the global `df_stocks`
(returned as the first component), filters by date range then by ticker with no
range validation, and builds the chart. -/
def stock_prices (s : AppState) (sel : StockSelection) : AppState × StockView :=
  let rows := s.stocks.rows
  let s2 : AppState := { s with stocks := { rows := rows, dateIsDatetime := true } }
  let dfDate := dateFiltered rows sel.start_date sel.end_date
  let dfFiltered := dfDate.filter (fun r => decide (r.ticker ∈ sel.tickers))
  (s2, { rows := dfFiltered
         usedStart := sel.start_date
         usedEnd := sel.end_date
         xField := "DATE"
         yField := sel.metric
         colorField := "TICKER" })

/-- The currency options of the FX multiselect. -/
def currencies : List String :=
  ["British Pound Sterling", "Canadian Dollar", "United States Dollar", "Japanese Yen",
   "Polish Zloty", "Turkish Lira", "Swiss Franc"]

/-- The default currency selection of the FX multiselect. -/
def defaultCurrencies : List String :=
  ["British Pound Sterling", "Canadian Dollar", "United States Dollar", "Swiss Franc",
   "Polish Zloty"]

/-- One run of the `fx_rates` page on state `s` with selected currencies `sel`:
filters `df_fx` by `QUOTE_CURRENCY_NAME.isin(sel)` and charts `VALUE` over
`DATE`, mutating nothing. -/
def fx_rates (s : AppState) (sel : List String) : AppState × FxView :=
  (s, { rows := s.fx.filter (fun r => decide (r.quote_currency_name ∈ sel))
        xField := "DATE"
        yField := "VALUE"
        colorField := "QUOTE_CURRENCY_NAME" })

/-- Date order on transformed rows, for stating that a ticker's records are
date-ascending. -/
def transDateLE (a b : TransRow) : Prop := a.date ≤ b.date

instance : DecidableRel transDateLE := fun a b => Int.decLe a.date b.date

theorem addChangeAux_ok_maps {prev : Option ℚ} {part : List StockRow} {out : List TransRow}
    (h : addChangeAux prev part = Except.ok out) :
    out.map (fun r => r.ticker) = part.map (fun r => r.ticker) ∧
    out.map (fun r => r.date) = part.map (fun r => r.date) := by
  induction part generalizing prev out with
  | nil =>
    simp only [addChangeAux] at h
    injection h with h
    subst h
    exact ⟨rfl, rfl⟩
  | cons r rs ih =>
    simp only [addChangeAux] at h
    split at h
    · simp at h
    · split at h
      · simp at h
      · rename_i rest heq2
        injection h with h
        subst h
        obtain ⟨h1, h2⟩ := ih heq2
        simp only [List.map_cons]
        exact ⟨by rw [h1], by rw [h2]⟩

theorem addChangeAux_ok_head {prev : Option ℚ} {part : List StockRow} {b : TransRow}
    {rest : List TransRow} (h : addChangeAux prev part = Except.ok (b :: rest)) :
    sqlDiv (sqlSub b.postmarket_close prev) prev = Except.ok b.day_over_day_change := by
  cases part with
  | nil => simp only [addChangeAux] at h; injection h with h; cases h
  | cons r rs =>
    simp only [addChangeAux] at h
    split at h
    · simp at h
    · rename_i chg heq
      split at h
      · simp at h
      · rename_i rest2 heq2
        injection h with h
        injection h with h1 h2
        subst h1
        exact heq

theorem addChangeAux_ok_consec {a b : TransRow} {post : List TransRow} {prev : Option ℚ}
    {part : List StockRow} {out pre : List TransRow}
    (h : addChangeAux prev part = Except.ok out) (hdec : out = pre ++ a :: b :: post) :
    sqlDiv (sqlSub b.postmarket_close a.postmarket_close) a.postmarket_close
      = Except.ok b.day_over_day_change := by
  induction part generalizing prev out pre with
  | nil =>
    simp only [addChangeAux] at h
    injection h with h
    subst h
    simp at hdec
  | cons r rs ih =>
    simp only [addChangeAux] at h
    split at h
    · simp at h
    · rename_i chg heq
      split at h
      · simp at h
      · rename_i rest heq2
        injection h with h
        rw [← h] at hdec
        cases pre with
        | nil =>
          simp only [List.nil_append, List.cons.injEq] at hdec
          obtain ⟨h1, h2⟩ := hdec
          subst h1
          rw [h2] at heq2
          exact addChangeAux_ok_head heq2
        | cons p pre' =>
          simp only [List.cons_append, List.cons.injEq] at hdec
          exact ih heq2 hdec.2

theorem mem_partitionRows {pivoted : List StockRow} {t : String} {r : StockRow}
    (h : r ∈ partitionRows pivoted t) : r ∈ pivoted ∧ r.ticker = t := by
  unfold partitionRows sortByDate at h
  rw [List.mem_insertionSort] at h
  simpa using h

theorem sorted_partitionRows (pivoted : List StockRow) (t : String) :
    List.Sorted dateLE (partitionRows pivoted t) :=
  List.sorted_insertionSort dateLE _

theorem addChangeAux_ok_sorted {prev : Option ℚ} {part : List StockRow} {out : List TransRow}
    (h : addChangeAux prev part = Except.ok out) (hs : List.Sorted dateLE part) :
    List.Sorted transDateLE out := by
  have hdates := (addChangeAux_ok_maps h).2
  have h1 : List.Pairwise (fun a b : Int => a ≤ b) (out.map (fun r => r.date)) := by
    rw [hdates]
    exact (List.pairwise_map (f := fun r : StockRow => r.date)).mpr hs
  exact (List.pairwise_map (f := fun r : TransRow => r.date)).mp h1

theorem addChangeAux_partition_ticker {pivoted : List StockRow} {t : String} {prev : Option ℚ}
    {part : List TransRow} (h : addChangeAux prev (partitionRows pivoted t) = Except.ok part)
    {r : TransRow} (hr : r ∈ part) : r.ticker = t := by
  have hmap := (addChangeAux_ok_maps h).1
  have hmem : r.ticker ∈ part.map (fun r => r.ticker) := List.mem_map_of_mem _ hr
  rw [hmap] at hmem
  obtain ⟨x, hx, hxe⟩ := List.mem_map.mp hmem
  rw [← hxe]
  exact (mem_partitionRows hx).2

theorem transformParts_ok_ticker {pivoted : List StockRow} {ts : List String}
    {out : List TransRow} (h : transformParts pivoted ts = Except.ok out)
    {r : TransRow} (hr : r ∈ out) : r.ticker ∈ ts := by
  induction ts generalizing out with
  | nil =>
    simp only [transformParts] at h
    injection h with h
    subst h
    cases hr
  | cons t ts' ih =>
    simp only [transformParts] at h
    split at h
    · simp at h
    · rename_i part heq
      split at h
      · simp at h
      · rename_i rest heq2
        injection h with h
        rw [← h] at hr
        rcases List.mem_append.mp hr with hp | hrest
        · rw [addChangeAux_partition_ticker heq hp]
          exact List.mem_cons_self _ _
        · exact List.mem_cons_of_mem _ (ih heq2 hrest)

theorem transformParts_ok_filter {pivoted : List StockRow} {ts : List String}
    {out : List TransRow} (h : transformParts pivoted ts = Except.ok out)
    (hnd : ts.Nodup) {t : String} (ht : t ∈ ts) :
    ∃ op, addChangeAux none (partitionRows pivoted t) = Except.ok op ∧
      out.filter (fun r => decide (r.ticker = t)) = op := by
  induction ts generalizing out with
  | nil => cases ht
  | cons t' ts' ih =>
    simp only [transformParts] at h
    split at h
    · simp at h
    · rename_i part heq
      split at h
      · simp at h
      · rename_i rest heq2
        injection h with h
        subst h
        rw [List.filter_append]
        rcases List.mem_cons.mp ht with rfl | hts'
        · refine ⟨part, heq, ?_⟩
          have h1 : part.filter (fun r => decide (r.ticker = t)) = part :=
            List.filter_eq_self.mpr fun r hr =>
              decide_eq_true (addChangeAux_partition_ticker heq hr)
          have h2 : rest.filter (fun r => decide (r.ticker = t)) = [] := by
            apply List.filter_eq_nil_iff.mpr
            intro r hr
            have hin := transformParts_ok_ticker heq2 hr
            have hnotin := (List.nodup_cons.mp hnd).1
            simp only [decide_eq_true_eq]
            intro hcontra
            rw [hcontra] at hin
            exact hnotin hin
          rw [h1, h2, List.append_nil]
        · obtain ⟨op, hop, hfil⟩ := ih heq2 (List.nodup_cons.mp hnd).2 hts'
          refine ⟨op, hop, ?_⟩
          have h1 : part.filter (fun r => decide (r.ticker = t)) = [] := by
            apply List.filter_eq_nil_iff.mpr
            intro r hr
            have hrt := addChangeAux_partition_ticker heq hr
            have hne : t' ≠ t := by
              rintro rfl
              exact (List.nodup_cons.mp hnd).1 hts'
            simp only [decide_eq_true_eq]
            intro hcontra
            exact hne (hrt ▸ hcontra ▸ rfl)
          rw [h1, hfil, List.nil_append]

theorem addChangeAux_zero_error {a b : StockRow} {post : List StockRow} {c : ℚ}
    (ha : a.postmarket_close = some 0) (hb : b.postmarket_close = some c) :
    ∀ (pre : List StockRow) (prev : Option ℚ),
      addChangeAux prev (pre ++ a :: b :: post) = Except.error () := by
  intro pre
  induction pre with
  | nil =>
    intro prev
    simp only [List.nil_append, addChangeAux]
    split
    · rfl
    · rw [ha, hb]
      simp [sqlSub, sqlDiv]
  | cons p pre' ih =>
    intro prev
    simp only [List.cons_append, addChangeAux]
    split
    · rfl
    · simp only [List.append_eq]
      rw [ih p.postmarket_close]

theorem transformParts_error {pivoted : List StockRow} {t : String}
    (herr : addChangeAux none (partitionRows pivoted t) = Except.error ()) :
    ∀ ts, t ∈ ts → transformParts pivoted ts = Except.error () := by
  intro ts
  induction ts with
  | nil => intro ht; cases ht
  | cons t' ts' ih =>
    intro ht
    simp only [transformParts]
    rcases List.mem_cons.mp ht with rfl | hts'
    · rw [herr]
    · split
      · rfl
      · rw [ih hts']

theorem maxAgg_map_none {α : Type} {l : List α} {f : α → Option ℚ}
    (h : ∀ x ∈ l, f x = none) : maxAgg (l.map f) = none := by
  induction l with
  | nil => rfl
  | cons x xs ih =>
    simp only [List.map_cons, maxAgg, List.foldr]
    rw [h x (List.mem_cons_self _ _)]
    have hxs := ih (fun y hy => h y (List.mem_cons_of_mem _ hy))
    simp only [maxAgg] at hxs
    rw [hxs]
    rfl

theorem pivotStocks_map_keys (rows : List RawStockRow) :
    (pivotStocks rows).map (fun r => (r.ticker, r.date)) = pivotKeys rows := by
  unfold pivotStocks
  rw [List.map_map]
  have hcomp : ((fun r : StockRow => (r.ticker, r.date)) ∘ pivotRow rows)
      = fun k : String × Int => k := by
    funext k
    rfl
  rw [hcomp, List.map_id']

theorem daysMax_spec (l : List Int) (h : l ≠ []) :
    daysMax l ∈ l ∧ ∀ d ∈ l, d ≤ daysMax l := by
  induction l with
  | nil => exact absurd rfl h
  | cons d ds ih =>
    cases ds with
    | nil =>
      refine ⟨List.mem_singleton.mpr rfl, ?_⟩
      intro x hx
      rw [List.mem_singleton.mp hx]
      exact le_refl _
    | cons d' ds' =>
      obtain ⟨hmem, hle⟩ := ih (by simp)
      have heq : daysMax (d :: d' :: ds') = max d (daysMax (d' :: ds')) := rfl
      constructor
      · rw [heq]
        rcases le_total d (daysMax (d' :: ds')) with hc | hc
        · rw [max_eq_right hc]
          exact List.mem_cons_of_mem _ hmem
        · rw [max_eq_left hc]
          exact List.mem_cons_self _ _
      · intro x hx
        rw [heq]
        rcases List.mem_cons.mp hx with rfl | hx'
        · exact le_max_left _ _
        · exact le_trans (hle x hx') (le_max_right _ _)

theorem daysMin_spec (l : List Int) (h : l ≠ []) :
    daysMin l ∈ l ∧ ∀ d ∈ l, daysMin l ≤ d := by
  induction l with
  | nil => exact absurd rfl h
  | cons d ds ih =>
    cases ds with
    | nil =>
      refine ⟨List.mem_singleton.mpr rfl, ?_⟩
      intro x hx
      rw [List.mem_singleton.mp hx]
      exact le_refl _
    | cons d' ds' =>
      obtain ⟨hmem, hle⟩ := ih (by simp)
      have heq : daysMin (d :: d' :: ds') = min d (daysMin (d' :: ds')) := rfl
      constructor
      · rw [heq]
        rcases le_total d (daysMin (d' :: ds')) with hc | hc
        · rw [min_eq_left hc]
          exact List.mem_cons_self _ _
        · rw [min_eq_right hc]
          exact List.mem_cons_of_mem _ hmem
      · intro x hx
        rw [heq]
        rcases List.mem_cons.mp hx with rfl | hx'
        · exact min_le_left _ _
        · exact le_trans (min_le_right _ _) (hle x hx')

theorem maxDate_spec {rows : List TransRow} (h : rows ≠ []) :
    (∃ r ∈ rows, r.date = maxDate rows) ∧ ∀ r ∈ rows, r.date ≤ maxDate rows := by
  have hne : rows.map (fun r => r.date) ≠ [] := by
    intro hc
    exact h (List.map_eq_nil_iff.mp hc)
  obtain ⟨hmem, hle⟩ := daysMax_spec _ hne
  constructor
  · obtain ⟨r, hr, hre⟩ := List.mem_map.mp hmem
    exact ⟨r, hr, hre⟩
  · intro r hr
    exact hle _ (List.mem_map_of_mem _ hr)

theorem minDate_spec {rows : List TransRow} (h : rows ≠ []) :
    (∃ r ∈ rows, r.date = minDate rows) ∧ ∀ r ∈ rows, minDate rows ≤ r.date := by
  have hne : rows.map (fun r => r.date) ≠ [] := by
    intro hc
    exact h (List.map_eq_nil_iff.mp hc)
  obtain ⟨hmem, hle⟩ := daysMin_spec _ hne
  constructor
  · obtain ⟨r, hr, hre⟩ := List.mem_map.mp hmem
    exact ⟨r, hr, hre⟩
  · intro r hr
    exact hle _ (List.mem_map_of_mem _ hr)

theorem sqlSub_none (x : Option ℚ) : sqlSub x none = none := by
  cases x <;> rfl

/-- Running example of the spec: one ticker AAPL with Post-Market Close 100 on
2024-01-01 (day 19723) and 110 on 2024-01-02 (day 19724). -/
def exRaw : List RawStockRow :=
  [{ ticker := "AAPL", date := 19723, variable_name := "Post-Market Close", value := some 100 },
   { ticker := "AAPL", date := 19724, variable_name := "Post-Market Close", value := some 110 }]

/-- The loaded row of the example for 2024-01-01. -/
def exA : TransRow :=
  { ticker := "AAPL", date := 19723, nasdaq_volume := none, postmarket_close := some 100,
    day_over_day_change := none }

/-- The loaded row of the example for 2024-01-02. -/
def exB : TransRow :=
  { ticker := "AAPL", date := 19724, nasdaq_volume := none, postmarket_close := some 110,
    day_over_day_change := some ((110 - 100) / 100) }

/-- C1: in a successfully loaded stock table, take any ticker's records (the rows
whose TICKER is `t`, which the transform produces in date-ascending order); whenever
records `a` and `b` are consecutive in that sequence, the previous close is `c1 ≠ 0`
and the current close is `c2`, then `b`'s DAY_OVER_DAY_CHANGE equals `(c2 - c1) / c1`.
Instantiated by its witness on the AAPL example, where the change on 2024-01-02 is
`(110 - 100) / 100 = 0.10`. -/
theorem c1_change_is_lag_ratio
    (raw : List RawStockRow) (out : List TransRow) (t : String)
    (pre post : List TransRow) (a b : TransRow) (c1 c2 : ℚ)
    (hload : loadStocks raw = Except.ok out)
    (hser : out.filter (fun r => decide (r.ticker = t)) = pre ++ a :: b :: post)
    (ha : a.postmarket_close = some c1) (hc1 : c1 ≠ 0)
    (hb : b.postmarket_close = some c2) :
    b.day_over_day_change = some ((c2 - c1) / c1) := by
  unfold loadStocks transformStocks at hload
  by_cases hmem : t ∈ tickersOf (pivotStocks raw)
  · obtain ⟨op, hop, hfil⟩ :=
      transformParts_ok_filter hload (by unfold tickersOf; exact List.nodup_dedup _) hmem
    rw [hser] at hfil
    have hconsec := addChangeAux_ok_consec hop hfil.symm
    rw [ha, hb] at hconsec
    simp only [sqlSub, sqlDiv, if_neg hc1] at hconsec
    injection hconsec with h
    exact h.symm
  · have hnil : out.filter (fun r => decide (r.ticker = t)) = [] := by
      apply List.filter_eq_nil_iff.mpr
      intro r hr
      simp only [decide_eq_true_eq]
      intro hc
      apply hmem
      rw [← hc]
      exact transformParts_ok_ticker hload hr
    rw [hser] at hnil
    simp at hnil

/-- C1 witness: the AAPL example, evaluated. -/
theorem c1_witness :
    loadStocks exRaw = Except.ok [exA, exB] ∧
    [exA, exB].filter (fun r => decide (r.ticker = "AAPL")) = [] ++ exA :: exB :: [] ∧
    exA.postmarket_close = some 100 ∧ (100 : ℚ) ≠ 0 ∧ exB.postmarket_close = some 110 ∧
    exB.day_over_day_change = some (((110 : ℚ) - 100) / 100) ∧
    ((110 : ℚ) - 100) / 100 = 1 / 10 :=
  ⟨rfl, rfl, rfl, by norm_num, rfl,
   c1_change_is_lag_ratio exRaw [exA, exB] "AAPL" [] [] exA exB 100 110 rfl rfl rfl
     (by norm_num) rfl,
   by norm_num⟩

/-- C2: in a successfully loaded stock table, for any ticker present (the ticker of
any row `r0`), the sequence of that ticker's records is date-ascending, and its
first record has DAY_OVER_DAY_CHANGE = null. -/
theorem c2_first_record_change_null
    (raw : List RawStockRow) (out : List TransRow) (r0 b : TransRow) (rest : List TransRow)
    (hload : loadStocks raw = Except.ok out)
    (hmem : r0 ∈ out)
    (hser : out.filter (fun r => decide (r.ticker = r0.ticker)) = b :: rest) :
    List.Sorted transDateLE (b :: rest) ∧ b.day_over_day_change = none := by
  unfold loadStocks transformStocks at hload
  have ht : r0.ticker ∈ tickersOf (pivotStocks raw) := transformParts_ok_ticker hload hmem
  obtain ⟨op, hop, hfil⟩ :=
    transformParts_ok_filter hload (by unfold tickersOf; exact List.nodup_dedup _) ht
  rw [hser] at hfil
  rw [← hfil] at hop
  constructor
  · exact addChangeAux_ok_sorted hop (sorted_partitionRows _ _)
  · have hhead := addChangeAux_ok_head hop
    rw [sqlSub_none] at hhead
    simp only [sqlDiv] at hhead
    injection hhead with h
    exact h.symm

/-- C2 witness: in the AAPL example the first record's change is null. -/
theorem c2_witness :
    loadStocks exRaw = Except.ok [exA, exB] ∧ exA ∈ [exA, exB] ∧
    [exA, exB].filter (fun r => decide (r.ticker = exA.ticker)) = exA :: [exB] ∧
    (List.Sorted transDateLE (exA :: [exB]) ∧ exA.day_over_day_change = none) :=
  ⟨rfl, List.mem_cons_self _ _, rfl,
   c2_first_record_change_null exRaw [exA, exB] exA exA [exB] rfl
     (List.mem_cons_self _ _) rfl⟩

/-- Input with a zero previous close for AAPL, triggering the unguarded division. -/
def exRawZero : List RawStockRow :=
  [{ ticker := "AAPL", date := 19723, variable_name := "Post-Market Close", value := some 0 },
   { ticker := "AAPL", date := 19724, variable_name := "Post-Market Close", value := some 110 }]

/-- Pivoted form of `exRawZero`, first row. -/
def zeroRowA : StockRow :=
  { ticker := "AAPL", date := 19723, nasdaq_volume := none, postmarket_close := some 0 }

/-- Pivoted form of `exRawZero`, second row. -/
def zeroRowB : StockRow :=
  { ticker := "AAPL", date := 19724, nasdaq_volume := none, postmarket_close := some 110 }

/-- C10: the DAY_OVER_DAY_CHANGE expression divides by the lagged close with no
guard: whenever some ticker's date-ordered partition has consecutive rows whose
previous close is the number 0 and whose current close is a number, the window
computation hits the division by zero and the whole query errors out — no branch
substitutes null in that case. -/
theorem c10_division_by_zero_unguarded
    (pivoted : List StockRow) (t : String) (pre post : List StockRow)
    (a b : StockRow) (c : ℚ)
    (hpart : partitionRows pivoted t = pre ++ a :: b :: post)
    (ha : a.postmarket_close = some 0) (hb : b.postmarket_close = some c) :
    transformStocks pivoted = Except.error () := by
  have herr : addChangeAux none (partitionRows pivoted t) = Except.error () := by
    rw [hpart]
    exact addChangeAux_zero_error ha hb pre none
  have hmem : t ∈ tickersOf pivoted := by
    have hamem : a ∈ partitionRows pivoted t := by
      rw [hpart]
      exact List.mem_append.mpr (Or.inr (List.mem_cons_self _ _))
    obtain ⟨hp, hticker⟩ := mem_partitionRows hamem
    unfold tickersOf
    rw [List.mem_dedup, ← hticker]
    exact List.mem_map_of_mem _ hp
  exact transformParts_error herr _ hmem

/-- C10 witness: AAPL closes 0 then 110 make the whole load error out. -/
theorem c10_witness :
    pivotStocks exRawZero = [zeroRowA, zeroRowB] ∧
    partitionRows [zeroRowA, zeroRowB] "AAPL" = [] ++ zeroRowA :: zeroRowB :: [] ∧
    zeroRowA.postmarket_close = some 0 ∧ zeroRowB.postmarket_close = some 110 ∧
    transformStocks [zeroRowA, zeroRowB] = Except.error () ∧
    loadStocks exRawZero = Except.error () :=
  ⟨rfl, rfl, rfl, rfl,
   c10_division_by_zero_unguarded [zeroRowA, zeroRowB] "AAPL" [] [] zeroRowA zeroRowB 110
     rfl rfl rfl,
   rfl⟩

/-- C3: the pivot produces a table whose `(TICKER, DATE)` keys are pairwise
distinct, and every group key occurring in the filtered input yields a row; a key
for which one of the two variables is absent still yields that row, with a null in
the corresponding column rather than a missing row. -/
theorem c3_pivot_distinct_keys_null_columns
    (rows : List RawStockRow) (t : String) (d : Int)
    (hkey : (t, d) ∈ pivotKeys rows) :
    List.Nodup ((pivotStocks rows).map (fun r => (r.ticker, r.date))) ∧
    ∃ r ∈ pivotStocks rows, r.ticker = t ∧ r.date = d ∧
      ((∀ x ∈ filteredRows rows, x.ticker = t → x.date = d →
          x.variable_name ≠ "Nasdaq Volume") → r.nasdaq_volume = none) ∧
      ((∀ x ∈ filteredRows rows, x.ticker = t → x.date = d →
          x.variable_name ≠ "Post-Market Close") → r.postmarket_close = none) := by
  constructor
  · rw [pivotStocks_map_keys]
    unfold pivotKeys
    exact List.nodup_dedup _
  · refine ⟨pivotRow rows (t, d), List.mem_map_of_mem _ hkey, rfl, rfl, ?_, ?_⟩
    · intro habs
      show maxAgg _ = none
      apply maxAgg_map_none
      intro x hx
      rw [List.mem_filter] at hx
      obtain ⟨hxf, hcond⟩ := hx
      simp only [Bool.and_eq_true, decide_eq_true_eq] at hcond
      unfold whenVar
      rw [if_neg (habs x hxf hcond.1 hcond.2)]
    · intro habs
      show maxAgg _ = none
      apply maxAgg_map_none
      intro x hx
      rw [List.mem_filter] at hx
      obtain ⟨hxf, hcond⟩ := hx
      simp only [Bool.and_eq_true, decide_eq_true_eq] at hcond
      unfold whenVar
      rw [if_neg (habs x hxf hcond.1 hcond.2)]

/-- One-row input whose only variable is Post-Market Close, so the pivot must
invent a null Nasdaq Volume column. -/
def rows3 : List RawStockRow :=
  [{ ticker := "AAPL", date := 19723, variable_name := "Post-Market Close", value := some 100 }]

/-- C3 witness: the one-row example, evaluated. -/
theorem c3_witness :
    ("AAPL", (19723 : Int)) ∈ pivotKeys rows3 ∧
    (List.Nodup ((pivotStocks rows3).map (fun r => (r.ticker, r.date))) ∧
     ∃ r ∈ pivotStocks rows3, r.ticker = "AAPL" ∧ r.date = 19723 ∧
       ((∀ x ∈ filteredRows rows3, x.ticker = "AAPL" → x.date = 19723 →
           x.variable_name ≠ "Nasdaq Volume") → r.nasdaq_volume = none) ∧
       ((∀ x ∈ filteredRows rows3, x.ticker = "AAPL" → x.date = 19723 →
           x.variable_name ≠ "Post-Market Close") → r.postmarket_close = none)) :=
  ⟨by decide, c3_pivot_distinct_keys_null_columns rows3 "AAPL" 19723 (by decide)⟩

/-- A raw FX row as delivered for EUR/USD (the VALUE is arbitrary but concrete). -/
def fxRaw0 : RawFxRow :=
  { base_currency_id := "EUR", quote_currency_name := "United States Dollar", date := 19723,
    variable_name := "EUR/USD", value := 2 }

/-- The row `load_data` produces from `fxRaw0`. -/
def fxLoaded0 : FxRow :=
  { base_currency_id := "EUR", quote_currency_name := "United States Dollar", date := 19723,
    exchange_rate := CellVal.str "EUR/USD", value := 2 }

/-- A loaded stock row with no numeric values, for concrete view-level inputs. -/
def sRow : TransRow :=
  { ticker := "AAPL", date := 19724, nasdaq_volume := none, postmarket_close := none,
    day_over_day_change := none }

/-- A concrete post-load state: one stock row, one FX row, DATE not yet datetime. -/
def s1 : AppState :=
  { stocks := { rows := [sRow], dateIsDatetime := false }, fx := [fxLoaded0] }

/-- C4 counterexample: one run of `stock_prices` does not leave the source tables in
their post-load state — `df_stocks['DATE'] = pd.to_datetime(df_stocks['DATE'])`
replaces the DATE column of the global stock table in place. -/
theorem c4_counterexample :
    (stock_prices s1 { start_date := 19695,
                       end_date := 19725,
                       tickers := ["AAPL"],
                       metric := "DAY_OVER_DAY_CHANGE" }).1 ≠ s1 := by
  decide

/-- C4 amended: the only mutation any view performs is `stock_prices` converting the
stock table's DATE column to datetime in place; the row data of both tables is
never changed, `fx_rates` mutates nothing, and a second run of `stock_prices`
leaves the already-converted state fixed, for every filter selection. -/
theorem c4_immutability_amended (s : AppState) (sel sel2 : StockSelection)
    (cur : List String) :
    (stock_prices s sel).1.stocks.rows = s.stocks.rows ∧
    (stock_prices s sel).1.stocks.dateIsDatetime = true ∧
    (stock_prices s sel).1.fx = s.fx ∧
    (fx_rates s cur).1 = s ∧
    (stock_prices (stock_prices s sel).1 sel2).1 = (stock_prices s sel).1 :=
  ⟨rfl, rfl, rfl, rfl, rfl⟩

/-- C5 counterexample: on a one-row input the loaded EXCHANGE_RATE cell is the
VARIABLE_NAME string, not a number — the rename targets the wrong column. -/
theorem c5_counterexample :
    loadFx [fxRaw0] = [fxLoaded0] ∧
    fxLoaded0.exchange_rate.isNum = false ∧
    fxLoaded0.exchange_rate = CellVal.str "EUR/USD" ∧
    fxRaw0.value = 2 :=
  ⟨rfl, rfl, rfl, rfl⟩

/-- C5 amended: every loaded FX row arises from a raw row passing the EUR and
2019-01-01 filters by renaming only: its EXCHANGE_RATE cell holds the raw
VARIABLE_NAME string (never a number), the numeric rate stays in the VALUE column,
and all remaining columns pass through unchanged. -/
theorem c5_exchange_rate_amended (rows : List RawFxRow) (row : FxRow)
    (hmem : row ∈ loadFx rows) :
    ∃ src ∈ rows, src.base_currency_id = "EUR" ∧ d2019_01_01 ≤ src.date ∧
      row.exchange_rate = CellVal.str src.variable_name ∧
      row.exchange_rate.isNum = false ∧
      row.value = src.value ∧
      row.quote_currency_name = src.quote_currency_name ∧
      row.date = src.date ∧ row.base_currency_id = src.base_currency_id := by
  unfold loadFx at hmem
  obtain ⟨src, hsrc, heq⟩ := List.mem_map.mp hmem
  rw [List.mem_filter] at hsrc
  obtain ⟨hsrcmem, hcond⟩ := hsrc
  simp only [Bool.and_eq_true, decide_eq_true_eq] at hcond
  subst heq
  exact ⟨src, hsrcmem, hcond.1, hcond.2, rfl, rfl, rfl, rfl, rfl, rfl⟩

/-- C5 witness: the amended statement, evaluated on the one-row input. -/
theorem c5_witness :
    fxLoaded0 ∈ loadFx [fxRaw0] ∧
    ∃ src ∈ [fxRaw0], src.base_currency_id = "EUR" ∧ d2019_01_01 ≤ src.date ∧
      fxLoaded0.exchange_rate = CellVal.str src.variable_name ∧
      fxLoaded0.exchange_rate.isNum = false ∧
      fxLoaded0.value = src.value ∧
      fxLoaded0.quote_currency_name = src.quote_currency_name ∧
      fxLoaded0.date = src.date ∧ fxLoaded0.base_currency_id = src.base_currency_id :=
  ⟨by decide, c5_exchange_rate_amended [fxRaw0] fxLoaded0 (by decide)⟩

/-- A reversed date range: start 19725 after end 19723. -/
def revSel : StockSelection :=
  { start_date := 19725, end_date := 19723, tickers := ["AAPL"],
    metric := "DAY_OVER_DAY_CHANGE" }

/-- C6 counterexample: with a reversed range the row filter is applied verbatim
with start > end — nothing rejects or corrects the range before filtering. -/
theorem c6_counterexample :
    (stock_prices s1 revSel).2.usedStart = 19725 ∧
    (stock_prices s1 revSel).2.usedEnd = 19723 ∧
    ¬((stock_prices s1 revSel).2.usedStart ≤ (stock_prices s1 revSel).2.usedEnd) ∧
    (stock_prices s1 revSel).2.rows = [] := by
  decide

/-- C6 amended: `stock_prices` performs no range validation — the user's bounds
reach the row filter unchanged even when reversed — and a reversed range simply
yields zero rows without error. -/
theorem c6_no_validation_amended (s : AppState) (sel : StockSelection)
    (hrev : sel.end_date < sel.start_date) :
    (stock_prices s sel).2.usedStart = sel.start_date ∧
    (stock_prices s sel).2.usedEnd = sel.end_date ∧
    (stock_prices s sel).2.rows = [] := by
  refine ⟨rfl, rfl, ?_⟩
  show (dateFiltered s.stocks.rows sel.start_date sel.end_date).filter
      (fun r => decide (r.ticker ∈ sel.tickers)) = []
  have hdf : dateFiltered s.stocks.rows sel.start_date sel.end_date = [] := by
    apply List.filter_eq_nil_iff.mpr
    intro r hr
    simp only [Bool.and_eq_true, decide_eq_true_eq]
    intro hc
    exact absurd (le_trans hc.1 hc.2) (not_le.mpr hrev)
  rw [hdf]
  rfl

/-- C6 witness: the amended statement at the concrete reversed range. -/
theorem c6_witness :
    revSel.end_date < revSel.start_date ∧
    ((stock_prices s1 revSel).2.usedStart = revSel.start_date ∧
     (stock_prices s1 revSel).2.usedEnd = revSel.end_date ∧
     (stock_prices s1 revSel).2.rows = []) :=
  ⟨by decide, c6_no_validation_amended s1 revSel (by decide)⟩

/-- C7: an empty ticker multiselect yields a stock view with zero rows, an empty
currency multiselect yields an FX view with zero rows, and a date range containing
none of the data's dates yields a stock view with zero rows — all without error,
the charts simply receiving empty dataframes. -/
theorem c7_empty_filters_yield_no_rows (s : AppState) (d1 d2 : Int) (m : String)
    (sel : StockSelection)
    (hout : ∀ r ∈ s.stocks.rows, r.date < sel.start_date ∨ sel.end_date < r.date) :
    (stock_prices s { start_date := d1, end_date := d2, tickers := [], metric := m }).2.rows
      = [] ∧
    (fx_rates s []).2.rows = [] ∧
    (stock_prices s sel).2.rows = [] := by
  refine ⟨?_, ?_, ?_⟩
  · show (dateFiltered s.stocks.rows d1 d2).filter
        (fun r => decide (r.ticker ∈ ([] : List String))) = []
    apply List.filter_eq_nil_iff.mpr
    intro r hr
    simp
  · show s.fx.filter (fun r => decide (r.quote_currency_name ∈ ([] : List String))) = []
    apply List.filter_eq_nil_iff.mpr
    intro r hr
    simp
  · show (dateFiltered s.stocks.rows sel.start_date sel.end_date).filter
        (fun r => decide (r.ticker ∈ sel.tickers)) = []
    have hdf : dateFiltered s.stocks.rows sel.start_date sel.end_date = [] := by
      apply List.filter_eq_nil_iff.mpr
      intro r hr
      simp only [Bool.and_eq_true, decide_eq_true_eq]
      intro hc
      rcases hout r hr with hlt | hgt
      · exact absurd hc.1 (not_le.mpr hlt)
      · exact absurd hc.2 (not_le.mpr hgt)
    rw [hdf]
    rfl

/-- A selected date range lying entirely after the data's dates. -/
def selOut : StockSelection :=
  { start_date := 19800,
    end_date := 19900,
    tickers := ["AAPL"],
    metric := "POSTMARKET_CLOSE" }

/-- C7 witness: concrete empty-selection and out-of-range runs, evaluated. -/
theorem c7_witness :
    (∀ r ∈ s1.stocks.rows, r.date < selOut.start_date ∨ selOut.end_date < r.date) ∧
    ((stock_prices s1 { start_date := 19695,
                        end_date := 19725,
                        tickers := [],
                        metric := "NASDAQ_VOLUME" }).2.rows = [] ∧
     (fx_rates s1 []).2.rows = [] ∧
     (stock_prices s1 selOut).2.rows = []) :=
  ⟨by decide,
   c7_empty_filters_yield_no_rows s1 19695 19725 "NASDAQ_VOLUME" selOut (by decide)⟩

/-- C8: every loaded FX row has base currency EUR and date on/after 2019-01-01, and
filtering the FX view to the single currency "Japanese Yen" returns exactly the
rows whose QUOTE_CURRENCY_NAME equals "Japanese Yen". -/
theorem c8_fx_eur_base_and_yen_filter (rawFx : List RawFxRow) (row : FxRow)
    (s : AppState) (hmem : row ∈ loadFx rawFx) :
    row.base_currency_id = "EUR" ∧ d2019_01_01 ≤ row.date ∧
    (fx_rates s ["Japanese Yen"]).2.rows
      = s.fx.filter (fun r => decide (r.quote_currency_name = "Japanese Yen")) := by
  unfold loadFx at hmem
  obtain ⟨src, hsrc, heq⟩ := List.mem_map.mp hmem
  rw [List.mem_filter] at hsrc
  obtain ⟨hsrcmem, hcond⟩ := hsrc
  simp only [Bool.and_eq_true, decide_eq_true_eq] at hcond
  subst heq
  refine ⟨hcond.1, hcond.2, ?_⟩
  show s.fx.filter (fun r => decide (r.quote_currency_name ∈ ["Japanese Yen"])) = _
  apply List.filter_congr
  intro r hr
  simp [List.mem_singleton]

/-- C8 witness: the restrictions, evaluated at a concrete loaded row and state. -/
theorem c8_witness :
    fxLoaded0 ∈ loadFx [fxRaw0] ∧
    (fxLoaded0.base_currency_id = "EUR" ∧ d2019_01_01 ≤ fxLoaded0.date ∧
     (fx_rates s1 ["Japanese Yen"]).2.rows
       = s1.fx.filter (fun r => decide (r.quote_currency_name = "Japanese Yen"))) :=
  ⟨by decide, c8_fx_eur_base_and_yen_filter [fxRaw0] fxLoaded0 s1 (by decide)⟩

/-- C9: on a nonempty stock table, the view's date bounds are the data's min and
max DATE (not constants); the default date range is `[max_date - 30, max_date]`;
the default ticker selection is the seven tracked tickers intersected with those
present in the default-range-filtered data; and the default metric is
DAY_OVER_DAY_CHANGE, the head of the selectbox options. -/
theorem c9_defaults_from_data (s : AppState) (hne : s.stocks.rows ≠ []) :
    (∃ r ∈ s.stocks.rows, r.date = maxDate s.stocks.rows) ∧
    (∀ r ∈ s.stocks.rows, r.date ≤ maxDate s.stocks.rows) ∧
    (∃ r ∈ s.stocks.rows, r.date = minDate s.stocks.rows) ∧
    (∀ r ∈ s.stocks.rows, minDate s.stocks.rows ≤ r.date) ∧
    (defaultStockSelection s.stocks.rows).start_date = maxDate s.stocks.rows - 30 ∧
    (defaultStockSelection s.stocks.rows).end_date = maxDate s.stocks.rows ∧
    (∀ t, t ∈ (defaultStockSelection s.stocks.rows).tickers ↔
      t ∈ tracked ∧ ∃ r ∈ dateFiltered s.stocks.rows (maxDate s.stocks.rows - 30)
        (maxDate s.stocks.rows), r.ticker = t) ∧
    (defaultStockSelection s.stocks.rows).metric = "DAY_OVER_DAY_CHANGE" := by
  obtain ⟨hmax1, hmax2⟩ := maxDate_spec hne
  obtain ⟨hmin1, hmin2⟩ := minDate_spec hne
  refine ⟨hmax1, hmax2, hmin1, hmin2, rfl, rfl, ?_, rfl⟩
  intro t
  show t ∈ defaultTickers _ _ _ ↔ _
  unfold defaultTickers
  rw [List.mem_filter]
  simp only [decide_eq_true_eq]
  constructor
  · rintro ⟨h1, h2⟩
    refine ⟨h1, ?_⟩
    unfold uniqueTickers at h2
    rw [List.mem_dedup] at h2
    obtain ⟨r, hr, hre⟩ := List.mem_map.mp h2
    exact ⟨r, hr, hre⟩
  · rintro ⟨h1, r, hr, hre⟩
    refine ⟨h1, ?_⟩
    unfold uniqueTickers
    rw [List.mem_dedup, ← hre]
    exact List.mem_map_of_mem _ hr

/-- C9 witness: the defaults, evaluated on the concrete one-row state. -/
theorem c9_witness :
    s1.stocks.rows ≠ [] ∧
    ((∃ r ∈ s1.stocks.rows, r.date = maxDate s1.stocks.rows) ∧
     (∀ r ∈ s1.stocks.rows, r.date ≤ maxDate s1.stocks.rows) ∧
     (∃ r ∈ s1.stocks.rows, r.date = minDate s1.stocks.rows) ∧
     (∀ r ∈ s1.stocks.rows, minDate s1.stocks.rows ≤ r.date) ∧
     (defaultStockSelection s1.stocks.rows).start_date = maxDate s1.stocks.rows - 30 ∧
     (defaultStockSelection s1.stocks.rows).end_date = maxDate s1.stocks.rows ∧
     (∀ t, t ∈ (defaultStockSelection s1.stocks.rows).tickers ↔
       t ∈ tracked ∧ ∃ r ∈ dateFiltered s1.stocks.rows (maxDate s1.stocks.rows - 30)
         (maxDate s1.stocks.rows), r.ticker = t) ∧
     (defaultStockSelection s1.stocks.rows).metric = "DAY_OVER_DAY_CHANGE") :=
  ⟨by decide, c9_defaults_from_data s1 (by decide)⟩
